import Mathlib

/-!
# Verification of `goenvsubst`

A shallow embedding of the Go package `github.com/iamolegga/goenvsubst`
(`goenvsubst.go`), which recursively replaces environment-variable references
of the form `$VAR_NAME` inside arbitrary Go data structures, in place.

## Embedding

* Go values reachable by the reflection-driven traversal are modelled by the
  inductive type `Value`: strings, opaque non-string scalars (`prim`,
  covering `int`, `bool`, …), possibly-nil pointers, structs (a list of
  fields, each with a name, its exported flag, and a value), slices, arrays,
  and maps (association lists of string keys to values).
* The environment (`os.Getenv`) is an opaque accessor `Env`; `getenv` returns
  the empty string for an undefined variable, exactly as `os.Getenv` does.
* Each Go function `func doX(v reflect.Value) error` both mutates the
  structure through the `reflect.Value` handle and returns an `error`.  We
  model the two observable effects as two total functions: `doX` gives the
  structure after the call, and `doXErr` gives the returned error
  (`Option String`, `none` being Go's `nil`).  The error functions mirror the
  propagation structure of the Go code exactly; `doValueErr_eq_none` proves
  that no branch ever constructs a non-nil error, so the early `return err`
  paths of the Go loops can never truncate a traversal and the value
  functions may recurse over whole lists.
* Settability (`reflect.Value.CanSet`) is passed explicitly as the `canSet`
  argument: `reflect.ValueOf` yields a non-addressable value (so `Do` starts
  with `canSet = false`), dereferencing a pointer yields an addressable one,
  slice elements are always addressable, array elements and struct fields
  inherit the container's addressability, and struct fields additionally
  require the field to be exported.
-/

/-- The environment accessor: `none` models an undefined variable. -/
def Env : Type := String → Option String

/-- `os.Getenv`: returns the empty string both for an undefined variable and
for a variable that is defined but empty. -/
def getenv (env : Env) (name : String) : String :=
  (env name).getD ""

/-- `strings.HasPrefix(s, "$")`: the pattern is the single ASCII character
`$`, so the test is exactly "the first character of `s` is `'$'`".  We work
on `String.data` (the underlying character list) to keep the definition
kernel-computable. -/
def hasDollarTrigger (s : String) : Bool :=
  match s.data with
  | '$' :: _ => true
  | _ => false

/-- `strings.TrimPrefix(s, "$")`: drops the leading `$` when present,
returns `s` unchanged otherwise. -/
def trimDollarTrigger (s : String) : String :=
  match s.data with
  | '$' :: rest => String.mk rest
  | _ => s

/-- `expandEnvVar` from `goenvsubst.go`: if `s` does not start with `$` it is
returned unchanged; otherwise the `$` is stripped and the remainder is looked
up in the environment. -/
def expandEnvVar (env : Env) (s : String) : String :=
  if hasDollarTrigger s then getenv env (trimDollarTrigger s) else s

/-- The shapes of Go values the traversal can encounter.  `prim` stands for
any non-string scalar (`int`, `bool`, `float64`, …), which the dispatcher
ignores.  A struct field is `(name, exported, value)`; map entries are keyed
by strings, as in every use of the package. -/
inductive Value : Type where
  | str (s : String) : Value
  | prim (n : Nat) : Value
  | ptrNil : Value
  | ptr (v : Value) : Value
  | struct (fields : List (String × Bool × Value)) : Value
  | slice (elems : List Value) : Value
  | array (elems : List Value) : Value
  | map (entries : List (String × Value)) : Value
deriving Repr

/-- `doString`: when the handle is settable (`v.CanSet()`), the string is
replaced by its expansion; otherwise it is left unchanged. -/
def doString (env : Env) (canSet : Bool) (s : String) : String :=
  if canSet then expandEnvVar env s else s

mutual

/-- `doValue` from `goenvsubst.go`.  The Go function first unwraps at most
one pointer level (`if v.Kind() == reflect.Ptr`, an `if`, not a loop; a nil
pointer returns immediately) and then switches on the resulting kind.  The
switch body appears twice below: once applied to the dereferenced value
(`doValueSwitch`, with `canSet = true` because `Elem` of a pointer is
addressable) and once inlined for values that were not pointers to begin
with. -/
def doValue (env : Env) (canSet : Bool) : Value → Value
  | .ptrNil => .ptrNil
  | .ptr w => .ptr (doValueSwitch env true w)
  | .str s => .str (doString env canSet s)
  | .struct fields => .struct (doStruct env canSet fields)
  | .slice elems => .slice (doSliceArray env true elems)
  | .array elems => .array (doSliceArray env canSet elems)
  | .map entries => .map (doMap env entries)
  | .prim n => .prim n

/-- The `switch v.Kind()` statement of `doValue`, applied to the value left
after the single pointer unwrap.  Note that it has no `reflect.Ptr` case: a
pointer that is still a pointer after the one unwrap falls through to the
final `return nil` and is left untouched. -/
def doValueSwitch (env : Env) (canSet : Bool) : Value → Value
  | .str s => .str (doString env canSet s)
  | .struct fields => .struct (doStruct env canSet fields)
  | .slice elems => .slice (doSliceArray env true elems)
  | .array elems => .array (doSliceArray env canSet elems)
  | .map entries => .map (doMap env entries)
  | v => v

/-- `doStruct`: iterates the fields in declaration order and recurses into a
field only when `field.CanSet()` holds, i.e. when the struct handle itself is
settable and the field is exported. -/
def doStruct (env : Env) (canSet : Bool) :
    List (String × Bool × Value) → List (String × Bool × Value)
  | [] => []
  | (name, exported, v) :: fields =>
    (if canSet && exported then (name, exported, doValue env true v)
     else (name, exported, v)) :: doStruct env canSet fields

/-- `doSliceArray`: iterates indices `0..length-1` in ascending order and
recurses into each element.  The one Go function serves both slices and
arrays; the difference is the settability of `v.Index(i)`, which the call
sites pass in (`true` for slice elements, the container's own settability
for array elements). -/
def doSliceArray (env : Env) (elemCanSet : Bool) : List Value → List Value
  | [] => []
  | v :: elems => doValue env elemCanSet v :: doSliceArray env elemCanSet elems

/-- `doMap`: iterates the entries.  A string-valued entry is expanded
directly and rewritten under the same key only when the expansion differs; a
non-string entry is copied out (`reflect.New(...).Elem()`, a settable copy),
recursed into with `canSet = true`, and unconditionally stored back under the
same key.  Keys are never inspected or altered. -/
def doMap (env : Env) : List (String × Value) → List (String × Value)
  | [] => []
  | (key, .str original) :: entries =>
    (key, .str (if expandEnvVar env original ≠ original then expandEnvVar env original
                else original)) :: doMap env entries
  | (key, v) :: entries =>
    (key, doValue env true v) :: doMap env entries

end

mutual

/-- The `error` returned by `doValue`: `nil` for nil pointers, for strings,
for unhandled kinds, and otherwise whatever the routed handler returns. -/
def doValueErr (env : Env) (canSet : Bool) : Value → Option String
  | .ptrNil => none
  | .ptr w => doValueSwitchErr env true w
  | .str _ => none
  | .struct fields => doStructErr env canSet fields
  | .slice elems => doSliceArrayErr env true elems
  | .array elems => doSliceArrayErr env canSet elems
  | .map entries => doMapErr env entries
  | .prim _ => none

/-- The error produced by the `switch` of `doValue` after a pointer unwrap. -/
def doValueSwitchErr (env : Env) (canSet : Bool) : Value → Option String
  | .str _ => none
  | .struct fields => doStructErr env canSet fields
  | .slice elems => doSliceArrayErr env true elems
  | .array elems => doSliceArrayErr env canSet elems
  | .map entries => doMapErr env entries
  | _ => none

/-- The error returned by `doStruct`: the first error of a recursive call on
a settable field, else `nil`. -/
def doStructErr (env : Env) (canSet : Bool) : List (String × Bool × Value) → Option String
  | [] => none
  | (_, exported, v) :: fields =>
    if canSet && exported then
      match doValueErr env true v with
      | some e => some e
      | none => doStructErr env canSet fields
    else doStructErr env canSet fields

/-- The error returned by `doSliceArray`: the first error of a recursive
call on an element, else `nil`. -/
def doSliceArrayErr (env : Env) (elemCanSet : Bool) : List Value → Option String
  | [] => none
  | v :: elems =>
    match doValueErr env elemCanSet v with
    | some e => some e
    | none => doSliceArrayErr env elemCanSet elems

/-- The error returned by `doMap`: string-valued entries produce no error;
for other entries the first error of the recursive call on the copy is
returned, else `nil`. -/
def doMapErr (env : Env) : List (String × Value) → Option String
  | [] => none
  | (_, .str _) :: entries => doMapErr env entries
  | (_, v) :: entries =>
    match doValueErr env true v with
    | some e => some e
    | none => doMapErr env entries

end

/-- `Do` from `goenvsubst.go`: `doValue(reflect.ValueOf(v))`.  The Go
function mutates the structure through the caller's reference and returns
only the error; we return both observable effects as a pair.
`reflect.ValueOf` yields a non-addressable value, hence `canSet = false`
(pointers are unwrapped inside `doValue`, and the unwrapped referent is
addressable). -/
def Do (env : Env) (v : Value) : Value × Option String :=
  (doValue env false v, doValueErr env false v)

/-! ## The skeleton of a value

`shape` erases every string (both string leaves and, vacuously, map keys and
field names carry over unchanged) while keeping all structure: constructors,
list lengths, field names and exported flags, map keys, and the position of
every nil pointer.  The traversal only ever rewrites string leaves, which
`shape_doValue` below makes precise. -/

mutual

/-- Erase string contents, keep all structure. -/
def shape : Value → Value
  | .str _ => .str ""
  | .prim n => .prim n
  | .ptrNil => .ptrNil
  | .ptr v => .ptr (shape v)
  | .struct fields => .struct (shapeFields fields)
  | .slice elems => .slice (shapeElems elems)
  | .array elems => .array (shapeElems elems)
  | .map entries => .map (shapeEntries entries)

def shapeFields : List (String × Bool × Value) → List (String × Bool × Value)
  | [] => []
  | (name, exported, v) :: fields => (name, exported, shape v) :: shapeFields fields

def shapeElems : List Value → List Value
  | [] => []
  | v :: elems => shape v :: shapeElems elems

def shapeEntries : List (String × Value) → List (String × Value)
  | [] => []
  | (key, v) :: entries => (key, shape v) :: shapeEntries entries

end

/-! ## Helper lemmas -/

theorem string_mk_data (s : String) : String.mk s.data = s := by
  cases s
  rfl

theorem doMap_if_collapse (env : Env) (original : String) :
    (if expandEnvVar env original ≠ original then expandEnvVar env original else original)
      = expandEnvVar env original := by
  by_cases h : expandEnvVar env original = original
  · simp [h]
  · simp [h]

theorem doSliceArray_eq_map (env : Env) (elemCanSet : Bool) :
    ∀ elems : List Value, doSliceArray env elemCanSet elems = elems.map (doValue env elemCanSet)
  | [] => rfl
  | v :: elems => by
    simp [doSliceArray, doSliceArray_eq_map env elemCanSet elems]

/-- The per-entry action of `doMap` (with the redundant "only write when the
expansion differs" test collapsed away). -/
def doMapEntry (env : Env) : String × Value → String × Value
  | (key, .str original) => (key, .str (expandEnvVar env original))
  | (key, v) => (key, doValue env true v)

theorem doMap_eq_map (env : Env) :
    ∀ entries : List (String × Value), doMap env entries = entries.map (doMapEntry env)
  | [] => rfl
  | (key, .str original) :: entries => by
    simp only [doMap, doMap_if_collapse, doMap_eq_map env entries, List.map_cons]
    rfl
  | (key, .prim n) :: entries => by
    simp [doMap, doMapEntry, doMap_eq_map env entries]
  | (key, .ptrNil) :: entries => by
    simp [doMap, doMapEntry, doMap_eq_map env entries]
  | (key, .ptr w) :: entries => by
    simp [doMap, doMapEntry, doMap_eq_map env entries]
  | (key, .struct fields) :: entries => by
    simp [doMap, doMapEntry, doMap_eq_map env entries]
  | (key, .slice elems) :: entries => by
    simp [doMap, doMapEntry, doMap_eq_map env entries]
  | (key, .array elems) :: entries => by
    simp [doMap, doMapEntry, doMap_eq_map env entries]
  | (key, .map inner) :: entries => by
    simp [doMap, doMapEntry, doMap_eq_map env entries]

theorem doMapEntry_fst (env : Env) (kv : String × Value) :
    (doMapEntry env kv).1 = kv.1 := by
  obtain ⟨key, v⟩ := kv
  cases v <;> rfl

theorem doMap_fst (env : Env) (entries : List (String × Value)) :
    (doMap env entries).map Prod.fst = entries.map Prod.fst := by
  rw [doMap_eq_map, List.map_map]
  apply List.map_congr_left
  intro kv _
  exact doMapEntry_fst env kv

theorem doStruct_false (env : Env) :
    ∀ fields : List (String × Bool × Value), doStruct env false fields = fields
  | [] => rfl
  | (name, exported, v) :: fields => by
    simp [doStruct, doStruct_false env fields]

/-! ## No branch ever produces an error -/

mutual

theorem doValueErr_eq_none (env : Env) (canSet : Bool) :
    ∀ v : Value, doValueErr env canSet v = none
  | .ptrNil => rfl
  | .ptr w => doValueSwitchErr_eq_none env true w
  | .str _ => rfl
  | .struct fields => doStructErr_eq_none env canSet fields
  | .slice elems => doSliceArrayErr_eq_none env true elems
  | .array elems => doSliceArrayErr_eq_none env canSet elems
  | .map entries => doMapErr_eq_none env entries
  | .prim _ => rfl

theorem doValueSwitchErr_eq_none (env : Env) (canSet : Bool) :
    ∀ v : Value, doValueSwitchErr env canSet v = none
  | .ptrNil => rfl
  | .ptr _ => rfl
  | .str _ => rfl
  | .struct fields => doStructErr_eq_none env canSet fields
  | .slice elems => doSliceArrayErr_eq_none env true elems
  | .array elems => doSliceArrayErr_eq_none env canSet elems
  | .map entries => doMapErr_eq_none env entries
  | .prim _ => rfl

theorem doStructErr_eq_none (env : Env) (canSet : Bool) :
    ∀ fields : List (String × Bool × Value), doStructErr env canSet fields = none
  | [] => rfl
  | (name, exported, v) :: fields => by
    have h1 := doValueErr_eq_none env true v
    have h2 := doStructErr_eq_none env canSet fields
    simp only [doStructErr, h1, h2]
    split <;> rfl

theorem doSliceArrayErr_eq_none (env : Env) (elemCanSet : Bool) :
    ∀ elems : List Value, doSliceArrayErr env elemCanSet elems = none
  | [] => rfl
  | v :: elems => by
    have h1 := doValueErr_eq_none env elemCanSet v
    have h2 := doSliceArrayErr_eq_none env elemCanSet elems
    simp only [doSliceArrayErr, h1, h2]

theorem doMapErr_eq_none (env : Env) :
    ∀ entries : List (String × Value), doMapErr env entries = none
  | [] => rfl
  | (key, .str original) :: entries => doMapErr_eq_none env entries
  | (key, .prim n) :: entries => by
    have h1 := doValueErr_eq_none env true (.prim n)
    have h2 := doMapErr_eq_none env entries
    simp only [doMapErr, h1, h2]
  | (key, .ptrNil) :: entries => by
    have h1 := doValueErr_eq_none env true .ptrNil
    have h2 := doMapErr_eq_none env entries
    simp only [doMapErr, h1, h2]
  | (key, .ptr w) :: entries => by
    have h1 := doValueErr_eq_none env true (.ptr w)
    have h2 := doMapErr_eq_none env entries
    simp only [doMapErr, h1, h2]
  | (key, .struct fields) :: entries => by
    have h1 := doValueErr_eq_none env true (.struct fields)
    have h2 := doMapErr_eq_none env entries
    simp only [doMapErr, h1, h2]
  | (key, .slice elems) :: entries => by
    have h1 := doValueErr_eq_none env true (.slice elems)
    have h2 := doMapErr_eq_none env entries
    simp only [doMapErr, h1, h2]
  | (key, .array elems) :: entries => by
    have h1 := doValueErr_eq_none env true (.array elems)
    have h2 := doMapErr_eq_none env entries
    simp only [doMapErr, h1, h2]
  | (key, .map inner) :: entries => by
    have h1 := doValueErr_eq_none env true (.map inner)
    have h2 := doMapErr_eq_none env entries
    simp only [doMapErr, h1, h2]

end

/-! ## The traversal only rewrites string leaves -/

mutual

theorem shape_doValue (env : Env) (canSet : Bool) :
    ∀ v : Value, shape (doValue env canSet v) = shape v
  | .ptrNil => rfl
  | .ptr w => by
    simp only [doValue, shape, shape_doValueSwitch env true w]
  | .str s => rfl
  | .struct fields => by
    simp only [doValue, shape, shapeFields_doStruct env canSet fields]
  | .slice elems => by
    simp only [doValue, shape, shapeElems_doSliceArray env true elems]
  | .array elems => by
    simp only [doValue, shape, shapeElems_doSliceArray env canSet elems]
  | .map entries => by
    simp only [doValue, shape, shapeEntries_doMap env entries]
  | .prim n => rfl

theorem shape_doValueSwitch (env : Env) (canSet : Bool) :
    ∀ v : Value, shape (doValueSwitch env canSet v) = shape v
  | .ptrNil => rfl
  | .ptr _ => rfl
  | .str s => rfl
  | .struct fields => by
    simp only [doValueSwitch, shape, shapeFields_doStruct env canSet fields]
  | .slice elems => by
    simp only [doValueSwitch, shape, shapeElems_doSliceArray env true elems]
  | .array elems => by
    simp only [doValueSwitch, shape, shapeElems_doSliceArray env canSet elems]
  | .map entries => by
    simp only [doValueSwitch, shape, shapeEntries_doMap env entries]
  | .prim n => rfl

theorem shapeFields_doStruct (env : Env) (canSet : Bool) :
    ∀ fields : List (String × Bool × Value),
      shapeFields (doStruct env canSet fields) = shapeFields fields
  | [] => rfl
  | (name, exported, v) :: fields => by
    have h1 := shape_doValue env true v
    have h2 := shapeFields_doStruct env canSet fields
    have e : doStruct env canSet ((name, exported, v) :: fields)
        = (if canSet && exported then (name, exported, doValue env true v)
           else (name, exported, v)) :: doStruct env canSet fields := rfl
    rw [e]
    split
    · simp [shapeFields, h1, h2]
    · simp [shapeFields, h2]

theorem shapeElems_doSliceArray (env : Env) (elemCanSet : Bool) :
    ∀ elems : List Value,
      shapeElems (doSliceArray env elemCanSet elems) = shapeElems elems
  | [] => rfl
  | v :: elems => by
    simp only [doSliceArray, shapeElems, shape_doValue env elemCanSet v,
      shapeElems_doSliceArray env elemCanSet elems]

theorem shapeEntries_doMap (env : Env) :
    ∀ entries : List (String × Value),
      shapeEntries (doMap env entries) = shapeEntries entries
  | [] => rfl
  | (key, .str original) :: entries => by
    simp only [doMap, shapeEntries, shape, shapeEntries_doMap env entries]
  | (key, .prim n) :: entries => by
    simp only [doMap, shapeEntries, shape_doValue env true (.prim n),
      shapeEntries_doMap env entries]
  | (key, .ptrNil) :: entries => by
    simp only [doMap, shapeEntries, shape_doValue env true .ptrNil,
      shapeEntries_doMap env entries]
  | (key, .ptr w) :: entries => by
    simp only [doMap, shapeEntries, shape_doValue env true (.ptr w),
      shapeEntries_doMap env entries]
  | (key, .struct fields) :: entries => by
    simp only [doMap, shapeEntries, shape_doValue env true (.struct fields),
      shapeEntries_doMap env entries]
  | (key, .slice elems) :: entries => by
    simp only [doMap, shapeEntries, shape_doValue env true (.slice elems),
      shapeEntries_doMap env entries]
  | (key, .array elems) :: entries => by
    simp only [doMap, shapeEntries, shape_doValue env true (.array elems),
      shapeEntries_doMap env entries]
  | (key, .map inner) :: entries => by
    simp only [doMap, shapeEntries, shape_doValue env true (.map inner),
      shapeEntries_doMap env entries]

end

/-! ## Facts about the substitution rule -/

theorem hasDollarTrigger_dollar_append (name : String) :
    hasDollarTrigger ("$" ++ name) = true := by
  simp [hasDollarTrigger, String.data_append]

theorem trimDollarTrigger_dollar_append (name : String) :
    trimDollarTrigger ("$" ++ name) = name := by
  simp only [trimDollarTrigger, String.data_append]
  exact string_mk_data name

theorem expandEnvVar_of_trigger_false {s : String} (env : Env)
    (ht : hasDollarTrigger s = false) : expandEnvVar env s = s := by
  simp [expandEnvVar, ht]

theorem expandEnvVar_of_trigger_true {s : String} (env : Env)
    (ht : hasDollarTrigger s = true) :
    expandEnvVar env s = getenv env (trimDollarTrigger s) := by
  simp [expandEnvVar, ht]

theorem expandEnvVar_dollar_append (env : Env) (name : String) :
    expandEnvVar env ("$" ++ name) = getenv env name := by
  rw [expandEnvVar_of_trigger_true env (hasDollarTrigger_dollar_append name),
    trimDollarTrigger_dollar_append]

/-- If no value the environment accessor can return starts with the trigger
character, then one expansion pass is a fixed point of a second one. -/
theorem expandEnvVar_idem (env : Env)
    (h : ∀ name, hasDollarTrigger (getenv env name) = false) (s : String) :
    expandEnvVar env (expandEnvVar env s) = expandEnvVar env s := by
  cases ht : hasDollarTrigger s
  · rw [expandEnvVar_of_trigger_false env ht, expandEnvVar_of_trigger_false env ht]
  · rw [expandEnvVar_of_trigger_true env ht,
      expandEnvVar_of_trigger_false env (h (trimDollarTrigger s))]

theorem doString_idem (env : Env)
    (h : ∀ name, hasDollarTrigger (getenv env name) = false) (canSet : Bool) (s : String) :
    doString env canSet (doString env canSet s) = doString env canSet s := by
  cases canSet
  · rfl
  · show expandEnvVar env (expandEnvVar env s) = expandEnvVar env s
    exact expandEnvVar_idem env h s

/-! ## Cons-step equations for the list handlers -/

theorem doStruct_cons (env : Env) (canSet : Bool) (name : String) (exported : Bool)
    (v : Value) (fields : List (String × Bool × Value)) :
    doStruct env canSet ((name, exported, v) :: fields)
      = (if canSet && exported then (name, exported, doValue env true v)
         else (name, exported, v)) :: doStruct env canSet fields := rfl

theorem doMap_cons (env : Env) (kv : String × Value) (entries : List (String × Value)) :
    doMap env (kv :: entries) = doMapEntry env kv :: doMap env entries := by
  obtain ⟨key, v⟩ := kv
  cases v
  case str original =>
    show (key, Value.str (if expandEnvVar env original ≠ original then expandEnvVar env original
        else original)) :: doMap env entries = _
    rw [doMap_if_collapse]
    rfl
  all_goals rfl

/-! ## Idempotence of the traversal

Under the assumption that no value the environment accessor returns itself
starts with the trigger character, a second traversal is a no-op. -/

mutual

theorem doValue_idem (env : Env)
    (h : ∀ name, hasDollarTrigger (getenv env name) = false) (canSet : Bool) :
    ∀ v : Value, doValue env canSet (doValue env canSet v) = doValue env canSet v
  | .ptrNil => rfl
  | .ptr w => by
    show Value.ptr (doValueSwitch env true (doValueSwitch env true w))
        = Value.ptr (doValueSwitch env true w)
    rw [doValueSwitch_idem env h true w]
  | .str s => by
    show Value.str (doString env canSet (doString env canSet s))
        = Value.str (doString env canSet s)
    rw [doString_idem env h canSet s]
  | .struct fields => by
    show Value.struct (doStruct env canSet (doStruct env canSet fields))
        = Value.struct (doStruct env canSet fields)
    rw [doStruct_idem env h canSet fields]
  | .slice elems => by
    show Value.slice (doSliceArray env true (doSliceArray env true elems))
        = Value.slice (doSliceArray env true elems)
    rw [doSliceArray_idem env h true elems]
  | .array elems => by
    show Value.array (doSliceArray env canSet (doSliceArray env canSet elems))
        = Value.array (doSliceArray env canSet elems)
    rw [doSliceArray_idem env h canSet elems]
  | .map entries => by
    show Value.map (doMap env (doMap env entries)) = Value.map (doMap env entries)
    rw [doMap_idem env h entries]
  | .prim n => rfl

theorem doValueSwitch_idem (env : Env)
    (h : ∀ name, hasDollarTrigger (getenv env name) = false) (canSet : Bool) :
    ∀ v : Value, doValueSwitch env canSet (doValueSwitch env canSet v) = doValueSwitch env canSet v
  | .ptrNil => rfl
  | .ptr _ => rfl
  | .str s => by
    show Value.str (doString env canSet (doString env canSet s))
        = Value.str (doString env canSet s)
    rw [doString_idem env h canSet s]
  | .struct fields => by
    show Value.struct (doStruct env canSet (doStruct env canSet fields))
        = Value.struct (doStruct env canSet fields)
    rw [doStruct_idem env h canSet fields]
  | .slice elems => by
    show Value.slice (doSliceArray env true (doSliceArray env true elems))
        = Value.slice (doSliceArray env true elems)
    rw [doSliceArray_idem env h true elems]
  | .array elems => by
    show Value.array (doSliceArray env canSet (doSliceArray env canSet elems))
        = Value.array (doSliceArray env canSet elems)
    rw [doSliceArray_idem env h canSet elems]
  | .map entries => by
    show Value.map (doMap env (doMap env entries)) = Value.map (doMap env entries)
    rw [doMap_idem env h entries]
  | .prim n => rfl

theorem doStruct_idem (env : Env)
    (h : ∀ name, hasDollarTrigger (getenv env name) = false) (canSet : Bool) :
    ∀ fields : List (String × Bool × Value),
      doStruct env canSet (doStruct env canSet fields) = doStruct env canSet fields
  | [] => rfl
  | (name, exported, v) :: fields => by
    have hv := doValue_idem env h true v
    have hf := doStruct_idem env h canSet fields
    rw [doStruct_cons env canSet name exported v fields]
    cases hce : canSet && exported
    · rw [if_neg (by simp [hce]),
        doStruct_cons env canSet name exported v (doStruct env canSet fields),
        if_neg (by simp [hce]), hf]
    · rw [if_pos (by simp [hce]),
        doStruct_cons env canSet name exported (doValue env true v) (doStruct env canSet fields),
        if_pos (by simp [hce]), hv, hf]

theorem doSliceArray_idem (env : Env)
    (h : ∀ name, hasDollarTrigger (getenv env name) = false) (elemCanSet : Bool) :
    ∀ elems : List Value,
      doSliceArray env elemCanSet (doSliceArray env elemCanSet elems)
        = doSliceArray env elemCanSet elems
  | [] => rfl
  | v :: elems => by
    have hv := doValue_idem env h elemCanSet v
    have he := doSliceArray_idem env h elemCanSet elems
    show doValue env elemCanSet (doValue env elemCanSet v)
          :: doSliceArray env elemCanSet (doSliceArray env elemCanSet elems)
        = doValue env elemCanSet v :: doSliceArray env elemCanSet elems
    rw [hv, he]

theorem doMap_idem (env : Env)
    (h : ∀ name, hasDollarTrigger (getenv env name) = false) :
    ∀ entries : List (String × Value), doMap env (doMap env entries) = doMap env entries
  | [] => rfl
  | kv :: entries => by
    rw [doMap_cons env kv entries,
      doMap_cons env (doMapEntry env kv) (doMap env entries),
      doMapEntry_idem env h kv, doMap_idem env h entries]

theorem doMapEntry_idem (env : Env)
    (h : ∀ name, hasDollarTrigger (getenv env name) = false) :
    ∀ kv : String × Value, doMapEntry env (doMapEntry env kv) = doMapEntry env kv
  | (key, .str original) => by
    show (key, Value.str (expandEnvVar env (expandEnvVar env original)))
        = (key, Value.str (expandEnvVar env original))
    rw [expandEnvVar_idem env h original]
  | (key, .prim n) => rfl
  | (key, .ptrNil) => rfl
  | (key, .ptr w) => by
    show (key, Value.ptr (doValueSwitch env true (doValueSwitch env true w)))
        = (key, Value.ptr (doValueSwitch env true w))
    rw [doValueSwitch_idem env h true w]
  | (key, .struct fields) => by
    show (key, Value.struct (doStruct env true (doStruct env true fields)))
        = (key, Value.struct (doStruct env true fields))
    rw [doStruct_idem env h true fields]
  | (key, .slice elems) => by
    show (key, Value.slice (doSliceArray env true (doSliceArray env true elems)))
        = (key, Value.slice (doSliceArray env true elems))
    rw [doSliceArray_idem env h true elems]
  | (key, .array elems) => by
    show (key, Value.array (doSliceArray env true (doSliceArray env true elems)))
        = (key, Value.array (doSliceArray env true elems))
    rw [doSliceArray_idem env h true elems]
  | (key, .map inner) => by
    show (key, Value.map (doMap env (doMap env inner))) = (key, Value.map (doMap env inner))
    rw [doMap_idem env h inner]

end

/-! ## Map handler: key independence and iteration order -/

theorem doMapEntry_key_indep (env : Env) (f : String → String) (kv : String × Value) :
    doMapEntry env (f kv.1, kv.2) = (f kv.1, (doMapEntry env kv).2) := by
  obtain ⟨key, v⟩ := kv
  cases v <;> rfl

theorem doMap_key_rename (env : Env) (f : String → String) :
    ∀ entries : List (String × Value),
      doMap env (entries.map (fun kv => (f kv.1, kv.2)))
        = (doMap env entries).map (fun kv => (f kv.1, kv.2))
  | [] => rfl
  | kv :: entries => by
    simp only [List.map_cons, doMap_cons, doMapEntry_key_indep env f kv, doMapEntry_fst,
      doMap_key_rename env f entries]

theorem doMap_perm (env : Env) {l1 l2 : List (String × Value)} (p : l1.Perm l2) :
    (doMap env l1).Perm (doMap env l2) := by
  rw [doMap_eq_map, doMap_eq_map]
  exact p.map (doMapEntry env)

theorem lookup_eq_of_perm {l1 l2 : List (String × Value)} (p : l1.Perm l2)
    (nd : (l1.map Prod.fst).Nodup) (k : String) :
    List.lookup k l1 = List.lookup k l2 := by
  induction p with
  | nil => rfl
  | cons x p ih =>
    simp only [List.map_cons, List.nodup_cons] at nd
    simp only [List.lookup]
    cases hkx : k == x.1
    · exact ih nd.2
    · rfl
  | swap x y l =>
    simp only [List.map_cons, List.nodup_cons, List.mem_cons] at nd
    simp only [List.lookup]
    cases hky : k == y.1 <;> cases hkx : k == x.1 <;> simp only [hky, hkx]
    exact absurd ((eq_of_beq hky).symm.trans (eq_of_beq hkx)) fun hyx => nd.1 (Or.inl hyx)
  | trans p1 p2 ih1 ih2 =>
    have nd2 := ((p1.map Prod.fst).nodup_iff).mp nd
    exact (ih1 nd).trans (ih2 nd2)

/-! ## Struct handler as a per-field map -/

/-- The action of one `doStruct` loop iteration on one field. -/
def doField (env : Env) (canSet : Bool) (field : String × Bool × Value) :
    String × Bool × Value :=
  if canSet && field.2.1 then (field.1, field.2.1, doValue env true field.2.2) else field

theorem doStruct_eq_map (env : Env) (canSet : Bool) :
    ∀ fields : List (String × Bool × Value),
      doStruct env canSet fields = fields.map (doField env canSet)
  | [] => rfl
  | (name, exported, v) :: fields => by
    simp only [doStruct_cons, List.map_cons, doStruct_eq_map env canSet fields, doField]

theorem doField_unexported (env : Env) (canSet : Bool)
    {field : String × Bool × Value} (h : field.2.1 = false) :
    doField env canSet field = field := by
  simp [doField, h]

/-- Non-string, non-container leaves (Go `int`, `bool`, `float64`, …). -/
def isScalarLeaf : Value → Bool
  | .prim _ => true
  | _ => false

theorem doField_scalar (env : Env) (canSet : Bool)
    {field : String × Bool × Value} (h : isScalarLeaf field.2.2 = true) :
    doField env canSet field = field := by
  obtain ⟨name, exported, v⟩ := field
  cases v <;> simp_all [isScalarLeaf, doField, doValue]

theorem doStruct_scalar (env : Env) (canSet : Bool)
    (fields : List (String × Bool × Value))
    (h : ∀ field ∈ fields, isScalarLeaf field.2.2 = true) :
    doStruct env canSet fields = fields := by
  rw [doStruct_eq_map]
  induction fields with
  | nil => rfl
  | cons field fields ih =>
    rw [List.map_cons, doField_scalar env canSet (h field (List.mem_cons_self field fields)),
      ih (fun f hf => h f (List.mem_cons_of_mem field hf))]

/-! ## Sequence handler lemmas -/

theorem doSliceArray_length (env : Env) (elemCanSet : Bool) (elems : List Value) :
    (doSliceArray env elemCanSet elems).length = elems.length := by
  rw [doSliceArray_eq_map, List.length_map]

/-! ## Concrete environments used by witnesses and counterexamples -/

/-- Defines only `X ↦ "hello"`. -/
def envX : Env := fun name => if name = "X" then some "hello" else none

/-- Chained reference: `X ↦ "$Y"`, `Y` undefined. -/
def envChain : Env := fun name => if name = "X" then some "$Y" else none

/-- Every variable undefined. -/
def envEmpty : Env := fun _ => none

/-- The README "Pointers" example environment: `MY_VALUE ↦ "hello"`. -/
def envMy : Env := fun name => if name = "MY_VALUE" then some "hello" else none

/-! ## The claims -/

/-- **C1.** For every string `s`, the substitution rule returns `s` unchanged
when `s` does not begin with the trigger character `$`; otherwise it strips
the leading `$` to obtain a name and returns the environment accessor's value
for that name, which is the empty string both when the name is undefined and
when it is defined but empty. -/
theorem claim_C1_substitution_rule (env : Env) (s name : String)
    (hs : hasDollarTrigger s = false) :
    expandEnvVar env s = s ∧
    expandEnvVar env ("$" ++ name) = getenv env name ∧
    (env name = none → expandEnvVar env ("$" ++ name) = "") ∧
    (env name = some "" → expandEnvVar env ("$" ++ name) = "") := by
  refine ⟨expandEnvVar_of_trigger_false env hs, expandEnvVar_dollar_append env name, ?_, ?_⟩
  · intro hnone
    rw [expandEnvVar_dollar_append env name, getenv, hnone]
    rfl
  · intro hempty
    rw [expandEnvVar_dollar_append env name, getenv, hempty]
    rfl

/-- Witness for C1 at `env = envX`, `s = "plain"`, `name = "X"`. -/
theorem claim_C1_witness :
    expandEnvVar envX "plain" = "plain" ∧
    expandEnvVar envX ("$" ++ "X") = getenv envX "X" ∧
    (envX "X" = none → expandEnvVar envX ("$" ++ "X") = "") ∧
    (envX "X" = some "" → expandEnvVar envX ("$" ++ "X") = "") :=
  claim_C1_substitution_rule envX "plain" "X" (by decide)

/-- **C2.** For every mapping, the key list after traversal is identical to
the key list before traversal (same keys, same cardinality); keys are never
read for substitution (renaming every key commutes with the traversal, so the
values computed never depend on the keys) and never rewritten, so a key such
as `"$TEST_VAR"` remains a literal key even when the environment defines
`TEST_VAR`. -/
theorem claim_C2_map_keys_preserved (env : Env) (canSet : Bool)
    (entries : List (String × Value)) (f : String → String) :
    doValue env canSet (.map entries) = .map (doMap env entries) ∧
    (doMap env entries).map Prod.fst = entries.map Prod.fst ∧
    (doMap env entries).length = entries.length ∧
    doMap env (entries.map (fun kv => (f kv.1, kv.2)))
      = (doMap env entries).map (fun kv => (f kv.1, kv.2)) := by
  refine ⟨rfl, doMap_fst env entries, ?_, doMap_key_rename env f entries⟩
  rw [doMap_eq_map, List.length_map]

/-- **C3.** For every input value, the top-level entry point `Do` returns the
success status (a nil error): under the current rule set no shape, no null
reference, and no substitution ever produces the reserved failure signal. -/
theorem claim_C3_do_always_succeeds (env : Env) (v : Value) :
    (Do env v).2 = none :=
  doValueErr_eq_none env false v

/-- **C4.** A null reference is never dereferenced: the dispatcher returns it
unchanged with a nil error, and — since the traversal only ever rewrites
string leaves (`shape` is preserved) — every null reference nested anywhere
in the structure is still null after the traversal. -/
theorem claim_C4_nil_preserved (env : Env) (canSet : Bool) (v : Value) :
    doValue env canSet .ptrNil = .ptrNil ∧
    Do env .ptrNil = (.ptrNil, none) ∧
    shape (doValue env canSet v) = shape v :=
  ⟨rfl, rfl, shape_doValue env canSet v⟩

/-- **C5.** The spec claims a reference to a reference is resolved by
repeating the dereference step until a non-reference shape is reached, so a
string reached through nested references is still substituted.  The code
dereferences exactly once (an `if`, not a loop) and its `switch` has no
pointer case, so a doubly-referenced string is left unchanged even though its
variable is defined — the README's own "Works with actual pointers" example
(`Do(&ptr)` with `ptr := &value`) performs no substitution.  The last
conjunct contrasts with the single-reference case, which does substitute. -/
theorem claim_C5_nested_reference_not_resolved :
    Do envMy (.ptr (.ptr (.str "$MY_VALUE")))
      = (.ptr (.ptr (.str "$MY_VALUE")), none) ∧
    getenv envMy "MY_VALUE" = "hello" ∧
    Do envMy (.ptr (.str "$MY_VALUE")) = (.ptr (.str "hello"), none) :=
  ⟨rfl, rfl, rfl⟩

/-- **C6 (counterexample).** Idempotence fails as stated: with `X ↦ "$Y"`
and `Y` undefined, one pass turns `"$X"` into `"$Y"` and a second pass turns
that into `""`. -/
theorem claim_C6_counterexample :
    (Do envChain ((Do envChain (.ptr (.str "$X"))).1)).1
      ≠ (Do envChain (.ptr (.str "$X"))).1 := by
  intro h
  have h1 : Value.ptr (Value.str "") = Value.ptr (Value.str "$Y") := h
  have h2 : Value.str "" = Value.str "$Y" := by injection h1
  have h3 : ("" : String) = "$Y" := by injection h2
  exact absurd h3 (by decide)

/-- **C6 (amended).** Running the traversal twice on the same structure with
the same environment yields the same final structure as running it once,
provided no value the environment accessor returns itself begins with the
trigger character `$` (the counterexample shows the unrestricted claim fails
when a variable's value is itself a `$`-reference). -/
theorem claim_C6_idempotent (env : Env)
    (h : ∀ name, hasDollarTrigger (getenv env name) = false) (v : Value) :
    (Do env ((Do env v).1)).1 = (Do env v).1 ∧
    (∀ canSet w, doValue env canSet (doValue env canSet w) = doValue env canSet w) :=
  ⟨doValue_idem env h false v, fun canSet w => doValue_idem env h canSet w⟩

/-- Witness for the amended C6 at the empty environment. -/
theorem claim_C6_witness :
    (Do envEmpty ((Do envEmpty (.ptr (.str "$X"))).1)).1
      = (Do envEmpty (.ptr (.str "$X"))).1 :=
  (claim_C6_idempotent envEmpty (fun _ => rfl) (.ptr (.str "$X"))).1

/-- **C7.** The sequence handler visits indices `0..length-1` in ascending
order (it is exactly an order-preserving element-wise map), recurses into
each element in place, preserves the length, and replaces each settable
string element by the substitution rule applied to it.  Slice elements are
always settable; array elements are settable whenever the array handle is
(`true` below). -/
theorem claim_C7_sequence_handler (env : Env) (canSet : Bool) (elems : List Value) :
    doValue env canSet (.slice elems) = .slice (elems.map (doValue env true)) ∧
    doValue env true (.array elems) = .array (elems.map (doValue env true)) ∧
    (doSliceArray env canSet elems).length = elems.length ∧
    (∀ s, doValue env true (.str s) = .str (expandEnvVar env s)) := by
  refine ⟨?_, ?_, doSliceArray_length env canSet elems, fun s => rfl⟩
  · show Value.slice (doSliceArray env true elems) = _
    rw [doSliceArray_eq_map]
  · show Value.array (doSliceArray env true elems) = _
    rw [doSliceArray_eq_map]

/-- **C8.** The struct handler preserves the number (and, by
`shape_doValue`, names and flags) of fields; a field whose exported flag is
`false` is skipped silently and left unchanged; a record containing only
non-string, non-container fields is left structurally equal; and the handler
reports no error. -/
theorem claim_C8_struct_visibility (env : Env) (canSet : Bool)
    (fields : List (String × Bool × Value)) :
    (doStruct env canSet fields).length = fields.length ∧
    (∀ (i : Nat) (h : i < fields.length) (h' : i < (doStruct env canSet fields).length),
        (fields.get ⟨i, h⟩).2.1 = false →
        (doStruct env canSet fields).get ⟨i, h'⟩ = fields.get ⟨i, h⟩) ∧
    ((∀ field ∈ fields, isScalarLeaf field.2.2 = true) →
        doValue env canSet (.struct fields) = .struct fields) ∧
    doValueErr env canSet (.struct fields) = none := by
  refine ⟨?_, ?_, ?_, doStructErr_eq_none env canSet fields⟩
  · rw [doStruct_eq_map, List.length_map]
  · intro i h h' hunexp
    simp only [List.get_eq_getElem] at hunexp ⊢
    simp only [doStruct_eq_map, List.getElem_map]
    exact doField_unexported env canSet hunexp
  · intro hall
    show Value.struct (doStruct env canSet fields) = _
    rw [doStruct_scalar env canSet fields hall]

/-- Witness for C8: the unexported field `"hidden"` keeps its `$X` literal
even though `X` is defined, and a struct of scalars is a fixed point. -/
theorem claim_C8_witness :
    (doStruct envX true [("Exported", true, Value.str "$X"),
        ("hidden", false, Value.str "$X")]).get ⟨1, by decide⟩
      = ("hidden", false, Value.str "$X") ∧
    doValue envX true (.struct [("A", true, Value.prim 1), ("b", false, Value.prim 2)])
      = .struct [("A", true, Value.prim 1), ("b", false, Value.prim 2)] := by
  constructor
  · have h := (claim_C8_struct_visibility envX true
      [("Exported", true, Value.str "$X"), ("hidden", false, Value.str "$X")]).2.1
      1 (by decide) (by decide) (by decide)
    exact h.trans rfl
  · exact (claim_C8_struct_visibility envX true
      [("A", true, Value.prim 1), ("b", false, Value.prim 2)]).2.2.1 (by decide)

/-- **C9.** The result of traversing a mapping does not depend on the order
in which its entries are iterated: any permutation of the entry list yields
the corresponding permutation of the results, and when the keys are distinct
the final mapping is the same finite map (lookups agree for every key). -/
theorem claim_C9_map_order_independent (env : Env)
    (l1 l2 : List (String × Value)) (p : l1.Perm l2) :
    (doMap env l1).Perm (doMap env l2) ∧
    ((l1.map Prod.fst).Nodup →
        ∀ k, List.lookup k (doMap env l1) = List.lookup k (doMap env l2)) := by
  refine ⟨doMap_perm env p, fun nd k => ?_⟩
  refine lookup_eq_of_perm (doMap_perm env p) ?_ k
  rw [doMap_fst]
  exact nd

/-- Witness for C9 on a two-entry map processed in both orders. -/
theorem claim_C9_witness :
    (doMap envX [("a", Value.str "$X"), ("b", Value.str "y")]).Perm
      (doMap envX [("b", Value.str "y"), ("a", Value.str "$X")]) ∧
    List.lookup "a" (doMap envX [("a", Value.str "$X"), ("b", Value.str "y")])
      = List.lookup "a" (doMap envX [("b", Value.str "y"), ("a", Value.str "$X")]) := by
  have h := claim_C9_map_order_independent envX
    [("a", Value.str "$X"), ("b", Value.str "y")]
    [("b", Value.str "y"), ("a", Value.str "$X")]
    (List.Perm.swap ("b", Value.str "y") ("a", Value.str "$X") [])
  exact ⟨h.1, h.2 (by decide) "a"⟩

/-- **C10.** When the string handler reaches a string handle that is not
settable — for example when the caller passes a bare non-pointer string or
struct to `Do`, so `reflect.ValueOf` yields a non-addressable value — the
string is silently left unchanged and the traversal still reports success;
no mutation occurs through non-settable handles (`doString` with
`canSet = false` is the identity, and a bare struct's fields all fail
`CanSet`). -/
theorem claim_C10_non_settable_no_mutation (env : Env) (s : String)
    (fields : List (String × Bool × Value)) :
    Do env (.str s) = (.str s, none) ∧
    Do env (.struct fields) = (.struct fields, none) ∧
    doString env false s = s := by
  refine ⟨rfl, ?_, rfl⟩
  have h1 := doStruct_false env fields
  have h2 := doStructErr_eq_none env false fields
  show (Value.struct (doStruct env false fields), doStructErr env false fields) = _
  rw [h1, h2]
